import Mathlib

/-!
Verification of the Employees CRUD service (`src/main.py`, FastAPI + MongoDB,
auth variant) against its natural-language specification.

The service is shallowly embedded: the MongoDB collection is a list of
documents together with a fresh-identifier counter, each route handler is a
Lean function from the incoming request data (and store state) to an HTTP
response (and new state), and the library primitives the code relies on
(`re.escape`, the anchored case-insensitive `$regex` match used by the skill
search, bcrypt password hashing and JWT signing) are modelled by executable
Lean functions faithful to their documented contracts as used by this code.
-/

/-! ## Calendar dates and BSON date values

`joining_date` arrives as a Python `datetime.date` and is stored as a
`datetime.datetime` (the date combined with midnight, `main.py` line 173).
`employee_helper` defensively accepts either a stored date-time or a bare
date (lines 98-102). -/

/-- A calendar date (Python `datetime.date`). -/
structure CalDate where
  year : Nat
  month : Nat
  day : Nat
deriving DecidableEq, Repr

/-- Zero-pad a numeral to at least `w` digits (as Python `isoformat` does). -/
def padNum (w : Nat) (n : Nat) : String :=
  let s := toString n
  let k := w - s.length
  String.mk (List.replicate k '0') ++ s

/-- Python `date.isoformat()`: `YYYY-MM-DD`. -/
def CalDate.isoformat (d : CalDate) : String :=
  padNum 4 d.year ++ "-" ++ padNum 2 d.month ++ "-" ++ padNum 2 d.day

/-- A date value as stored in a document: either a date-time (a calendar
date plus a time-of-day, in milliseconds within the day) or a bare date.
The handlers always store date-times (`datetime.combine(d, midnight)`), the
bare-date form models upstream data written by another representation. -/
inductive BsonDate where
  | dateTime (d : CalDate) (msOfDay : Nat)
  | dateOnly (d : CalDate)
deriving DecidableEq, Repr

/-- Python `datetime.combine(d, datetime.min.time())`: the date at midnight. -/
def combineMidnight (d : CalDate) : BsonDate :=
  BsonDate.dateTime d 0

/-- The calendar date of a stored date value (`datetime.date()` on a
date-time, the identity on a bare date). -/
def BsonDate.calDate : BsonDate → CalDate
  | BsonDate.dateTime d _ => d
  | BsonDate.dateOnly d => d

/-- Sort key used to model MongoDB's ordering of stored dates: dates are
compared chronologically, and within a day by time-of-day (a bare date sorts
like midnight). The encoding is monotone in (year, month, day, time). -/
def BsonDate.sortKey : BsonDate → Nat
  | BsonDate.dateTime d t => ((d.year * 100 + d.month) * 100 + d.day) * 86400000 + t
  | BsonDate.dateOnly d => ((d.year * 100 + d.month) * 100 + d.day) * 86400000

/-! ## The regular-expression primitive used by the skill search

`search_employees_by_skill` builds the MongoDB filter
`{"skills": {"$elemMatch": {"$regex": f"^{re.escape(skill)}$", "$options": "i"}}}`
(`main.py` lines 187-188).  We model `re.escape` exactly (Python ≥ 3.7
escapes precisely the characters of `_special_chars_map`), and give an
executable semantics to the anchored, case-insensitive patterns this code
generates: a parser from the pattern text to a small regex syntax (literals,
`.`, `*`, `+`, escapes, with `^`/`$` anchoring the whole pattern), and a
Brzozowski-derivative matcher whose literal comparison is case-insensitive,
modelling the `i` option. -/

/-- The characters Python's `re.escape` escapes (its `_special_chars_map`). -/
def reSpecialChars : List Char :=
  ['(', ')', '[', ']', '\x7b', '\x7d', '?', '*', '+', '-', '|', '^', '$',
   '\\', '.', '&', '~', '#', ' ', '\t', '\n', '\r', '\x0b', '\x0c']

/-- Escape one character as `re.escape` does. -/
def escChar (c : Char) : List Char :=
  if reSpecialChars.contains c then ['\\', c] else [c]

/-- `re.escape` on a character list. -/
def escapeList (l : List Char) : List Char :=
  l.flatMap escChar

/-- Python `re.escape`. -/
def reEscape (s : String) : String :=
  String.mk (escapeList s.data)

/-- Regex syntax: empty language, empty string, a literal character, `.`,
alternation, concatenation, Kleene star (`x+` is parsed as `x·x*`). -/
inductive Re where
  | emp : Re
  | eps : Re
  | lit : Char → Re
  | dot : Re
  | alt : Re → Re → Re
  | cat : Re → Re → Re
  | star : Re → Re
deriving DecidableEq, Repr

/-- Does the regex accept the empty string? -/
def Re.nullable : Re → Bool
  | Re.emp => false
  | Re.eps => true
  | Re.lit _ => false
  | Re.dot => false
  | Re.alt r s => r.nullable || s.nullable
  | Re.cat r s => r.nullable && s.nullable
  | Re.star _ => true

/-- Brzozowski derivative, with case-insensitive literal comparison
(modelling the `$options: "i"` flag the handler always passes). -/
def Re.derivCI : Re → Char → Re
  | Re.emp, _ => Re.emp
  | Re.eps, _ => Re.emp
  | Re.lit c, x => if c.toLower = x.toLower then Re.eps else Re.emp
  | Re.dot, _ => Re.eps
  | Re.alt r s, x => Re.alt (r.derivCI x) (s.derivCI x)
  | Re.cat r s, x =>
      if r.nullable then Re.alt (Re.cat (r.derivCI x) s) (s.derivCI x)
      else Re.cat (r.derivCI x) s
  | Re.star r, x => Re.cat (r.derivCI x) (Re.star r)

/-- Full-string match via iterated derivatives. -/
def reMatch : Re → List Char → Bool
  | r, [] => r.nullable
  | r, c :: cs => reMatch (r.derivCI c) cs

/-- Parse the body of an anchored pattern (everything after the leading
`^`) up to and including the closing `$`, accumulating parsed atoms.
A `\` escapes the next character to a literal; `.`, `*`, `+` have their
regex meaning; a bare `^` or a `$` before the end is not generated by the
query builder and is rejected. -/
def parseBody (acc : List Re) : List Char → Option (List Re)
  | [] => none
  | c :: rest =>
    if c = '$' then
      if rest.isEmpty then some acc.reverse else none
    else if c = '\\' then
      match rest with
      | [] => none
      | c2 :: rest2 => parseBody (Re.lit c2 :: acc) rest2
    else if c = '.' then parseBody (Re.dot :: acc) rest
    else if c = '*' then
      match acc with
      | [] => none
      | a :: acc2 => parseBody (Re.star a :: acc2) rest
    else if c = '+' then
      match acc with
      | [] => none
      | a :: acc2 => parseBody (Re.cat a (Re.star a) :: acc2) rest
    else if c = '^' then none
    else parseBody (Re.lit c :: acc) rest

/-- Concatenate a parsed sequence of atoms. -/
def toRe (atoms : List Re) : Re :=
  atoms.foldr Re.cat Re.eps

/-- Semantics of the MongoDB `$regex` operator with `$options: "i"` as used
here: the pattern must be anchored (`^...$`, the only shape this service
generates), and the whole subject string must match. -/
def mongoRegexAnchoredCI (pat : String) (s : String) : Bool :=
  match pat.data with
  | '^' :: rest =>
    match parseBody [] rest with
    | some atoms => reMatch (toRe atoms) s.data
    | none => false
  | _ => false

/-- The pattern string the handler builds: `f"^{re.escape(skill)}$"`. -/
def skillRegexPattern (skill : String) : String :=
  "^" ++ reEscape skill ++ "$"

/-! ### Correctness of the escaped, anchored, case-insensitive match -/

theorem reMatch_emp (cs : List Char) : reMatch Re.emp cs = false := by
  induction cs with
  | nil => rfl
  | cons c cs ih => simpa [reMatch, Re.derivCI] using ih

theorem reMatch_eps (cs : List Char) : reMatch Re.eps cs = cs.isEmpty := by
  cases cs with
  | nil => rfl
  | cons c cs => simp [reMatch, Re.derivCI, reMatch_emp]

theorem reMatch_alt (cs : List Char) :
    ∀ r s : Re, reMatch (Re.alt r s) cs = (reMatch r cs || reMatch s cs) := by
  induction cs with
  | nil => intro r s; rfl
  | cons c cs ih => intro r s; simpa [reMatch, Re.derivCI] using ih (r.derivCI c) (s.derivCI c)

theorem reMatch_cat_emp (cs : List Char) (r : Re) :
    reMatch (Re.cat Re.emp r) cs = false := by
  induction cs with
  | nil => rfl
  | cons c cs ih => simpa [reMatch, Re.derivCI, Re.nullable] using ih

theorem reMatch_cat_eps (cs : List Char) : ∀ r : Re,
    reMatch (Re.cat Re.eps r) cs = reMatch r cs := by
  cases cs with
  | nil => intro r; simp [reMatch, Re.nullable]
  | cons c cs =>
    intro r
    simp [reMatch, Re.derivCI, Re.nullable, reMatch_alt, reMatch_cat_emp]

theorem reMatch_cat_lit_nil (c : Char) (r : Re) :
    reMatch (Re.cat (Re.lit c) r) [] = false := by
  simp [reMatch, Re.nullable]

theorem reMatch_cat_lit_cons (c x : Char) (t : List Char) (r : Re) :
    reMatch (Re.cat (Re.lit c) r) (x :: t)
      = (decide (c.toLower = x.toLower) && reMatch r t) := by
  by_cases h : c.toLower = x.toLower
  · simp [reMatch, Re.derivCI, Re.nullable, h, reMatch_cat_eps]
  · simp [reMatch, Re.derivCI, Re.nullable, h, reMatch_cat_emp]

/-- A sequence of literal atoms matches exactly the spelled-out word,
compared case-insensitively. -/
theorem reMatch_litSeq (l : List Char) : ∀ cs : List Char,
    reMatch (toRe (l.map Re.lit)) cs = true
      ↔ cs.map Char.toLower = l.map Char.toLower := by
  induction l with
  | nil =>
    intro cs
    cases cs with
    | nil => simp [toRe, reMatch, Re.nullable]
    | cons x t => simp [toRe, reMatch_eps]
  | cons c l ih =>
    intro cs
    cases cs with
    | nil => simp [toRe, reMatch_cat_lit_nil]
    | cons x t =>
      have hstep := reMatch_cat_lit_cons c x t (toRe (l.map Re.lit))
      simp only [toRe, List.map_cons, List.foldr_cons] at hstep ⊢
      rw [hstep]
      simp only [Bool.and_eq_true, decide_eq_true_eq, List.cons.injEq]
      constructor
      · rintro ⟨h1, h2⟩
        exact ⟨h1.symm, (ih t).mp h2⟩
      · rintro ⟨h1, h2⟩
        exact ⟨h1.symm, (ih t).mpr h2⟩

theorem parseBody_nonspecial (acc : List Re) (c : Char) (rest : List Char)
    (hc : ¬ reSpecialChars.contains c = true) :
    parseBody acc (c :: rest) = parseBody (Re.lit c :: acc) rest := by
  have h1 : ¬ c = '$' := by rintro rfl; exact hc (by decide)
  have h2 : ¬ c = '\\' := by rintro rfl; exact hc (by decide)
  have h3 : ¬ c = '.' := by rintro rfl; exact hc (by decide)
  have h4 : ¬ c = '*' := by rintro rfl; exact hc (by decide)
  have h5 : ¬ c = '+' := by rintro rfl; exact hc (by decide)
  have h6 : ¬ c = '^' := by rintro rfl; exact hc (by decide)
  rw [parseBody.eq_def]
  simp only []
  rw [if_neg h1, if_neg h2, if_neg h3, if_neg h4, if_neg h5, if_neg h6]

theorem parseBody_escape (l : List Char) : ∀ acc : List Re,
    parseBody acc (escapeList l ++ ['$']) = some (acc.reverse ++ l.map Re.lit) := by
  induction l with
  | nil =>
    intro acc
    simp [escapeList, parseBody]
  | cons c t ih =>
    intro acc
    by_cases hc : reSpecialChars.contains c = true
    · have hesc : escapeList (c :: t) = '\\' :: c :: escapeList t := by
        unfold escapeList
        rw [List.flatMap_cons]
        unfold escChar
        rw [if_pos hc]
        rfl
      rw [hesc]
      simp only [List.cons_append, parseBody]
      norm_num
      rw [ih (Re.lit c :: acc)]
      simp
    · have hesc : escapeList (c :: t) = c :: escapeList t := by
        unfold escapeList
        rw [List.flatMap_cons]
        unfold escChar
        rw [if_neg hc]
        rfl
      rw [hesc, List.cons_append, parseBody_nonspecial _ _ _ hc, ih (Re.lit c :: acc)]
      simp

theorem mongoRegex_escaped (skill s : String) :
    mongoRegexAnchoredCI (skillRegexPattern skill) s = true
      ↔ s.toLower = skill.toLower := by
  have hdata : (skillRegexPattern skill).data
      = '^' :: (escapeList skill.data ++ ['$']) := by
    simp [skillRegexPattern, String.data_append, reEscape]
  rw [mongoRegexAnchoredCI, hdata]
  simp only [parseBody_escape skill.data []]
  rw [List.reverse_nil, List.nil_append]
  rw [reMatch_litSeq]
  constructor
  · intro h
    have : s.toLower.data = skill.toLower.data := by
      rw [String.toLower, String.toLower, String.map_eq, String.map_eq]
      exact h
    exact String.ext this
  · intro h
    have := congrArg String.data h
    rw [String.toLower, String.toLower, String.map_eq, String.map_eq] at this
    exact this

/-! ## Documents, store state, and the data mapper -/

/-- An employee document as stored in the `employees` collection.
`oid` models the store-assigned `_id` (an ObjectId, distinct from
`employee_id`). -/
structure EmployeeDoc where
  oid : Nat
  employee_id : String
  name : String
  department : String
  salary : Int
  joining_date : BsonDate
  skills : List String
deriving DecidableEq, Repr

/-- The document-store state: the collection's documents in natural
(insertion) order, and the next fresh `_id`. -/
structure StoreState where
  docs : List EmployeeDoc
  nextId : Nat
deriving DecidableEq, Repr

/-- A store state is well formed when every stored `_id` is older than the
next fresh one (what ObjectId generation guarantees). -/
def StoreState.WF (st : StoreState) : Prop :=
  ∀ d ∈ st.docs, d.oid < st.nextId

/-- The wire representation produced by `employee_helper` (`main.py`
lines 97-111): the `_id` stringified, `joining_date` reduced to a
date-only ISO string. -/
structure EmpResponse where
  id : String
  employee_id : String
  name : String
  department : String
  salary : Int
  joining_date : String
  skills : List String
deriving DecidableEq, Repr

/-- `employee_helper` (`main.py` lines 97-111). The stored `joining_date`
is a date-time or a bare date; either way only the calendar date is kept
and rendered with `isoformat`. -/
def employee_helper (doc : EmployeeDoc) : EmpResponse :=
  { id := toString doc.oid
    employee_id := doc.employee_id
    name := doc.name
    department := doc.department
    salary := doc.salary
    joining_date := doc.joining_date.calDate.isoformat
    skills := doc.skills }

/-- `collection.find_one({"employee_id": eid})`: the first document in
natural order whose `employee_id` equals `eid`. -/
def findByEmployeeId (docs : List EmployeeDoc) (eid : String) : Option EmployeeDoc :=
  docs.find? (fun d => d.employee_id == eid)

/-! ## HTTP responses -/

/-- An HTTP outcome: a success with a status code and a body, or an
`HTTPException` with a status code and a detail message. -/
inductive HResp (α : Type) where
  | ok : Nat → α → HResp α
  | err : Nat → String → HResp α
deriving DecidableEq, Repr

/-! ## Skill search (`GET /employees/search`, `main.py` lines 181-193) -/

/-- The filter `{"skills": {"$elemMatch": {"$regex": f"^{re.escape(skill)}$",
"$options": "i"}}}` applied to one document: some element of the `skills`
array matches the anchored, case-insensitive, escaped pattern. -/
def skillQueryMatches (skill : String) (doc : EmployeeDoc) : Bool :=
  doc.skills.any (fun s => mongoRegexAnchoredCI (skillRegexPattern skill) s)

/-- `search_employees_by_skill`: filter in natural order, then `skip`, then
`limit`, map through `employee_helper`; 404 when the page is empty. -/
def search_employees_by_skill (st : StoreState) (skill : String)
    (skip : Nat) (limit : Nat) : HResp (List EmpResponse) :=
  let docs := ((((st.docs.filter (skillQueryMatches skill)).drop skip).take limit).map
    employee_helper)
  if docs.isEmpty then HResp.err 404 "Employee not found"
  else HResp.ok 200 docs

/-- C1: the skill-search filter selects a stored record iff some element of
its `skills` array equals the query skill under case-insensitive
full-string comparison — the anchored (`^...$`), case-insensitive (`i`),
`re.escape`d pattern matches exactly the literal skill text, so `"Python"`
matches `"python"` but not `"Python3"`, and pattern-special characters in
the query (e.g. `"C++"`) are matched literally. -/
theorem skill_search_selects_iff_case_insensitive_full_match
    (skill : String) (doc : EmployeeDoc) :
    skillQueryMatches skill doc = true
      ↔ ∃ s ∈ doc.skills, s.toLower = skill.toLower := by
  rw [skillQueryMatches, List.any_eq_true]
  constructor
  · rintro ⟨s, hs, hm⟩
    exact ⟨s, hs, (mongoRegex_escaped skill s).mp hm⟩
  · rintro ⟨s, hs, hm⟩
    exact ⟨s, hs, (mongoRegex_escaped skill s).mpr hm⟩

/-! ## Create / get (`main.py` lines 167-176, 229-234) -/

/-- Request body of `POST /employees` (`EmployeeCreate`). -/
structure EmployeeCreate where
  employee_id : String
  name : String
  department : String
  salary : Int
  joining_date : CalDate
  skills : List String
deriving DecidableEq, Repr

/-- `create_employee`: reject a duplicate `employee_id` with 400, otherwise
insert the payload with `joining_date` combined with midnight, re-read the
inserted document by `_id`, and return it mapped, with status 201. -/
def create_employee (st : StoreState) (payload : EmployeeCreate) :
    HResp EmpResponse × StoreState :=
  match findByEmployeeId st.docs payload.employee_id with
  | some _ => (HResp.err 400 "employee_id already exists", st)
  | none =>
    let doc : EmployeeDoc :=
      { oid := st.nextId
        employee_id := payload.employee_id
        name := payload.name
        department := payload.department
        salary := payload.salary
        joining_date := combineMidnight payload.joining_date
        skills := payload.skills }
    let docs' := st.docs ++ [doc]
    let st' : StoreState := ⟨docs', st.nextId + 1⟩
    match docs'.find? (fun d => d.oid == st.nextId) with
    | some newDoc => (HResp.ok 201 (employee_helper newDoc), st')
    | none => (HResp.err 500 "Internal Server Error", st')

/-- `get_employee`: 404 when no document has the `employee_id`. -/
def get_employee (st : StoreState) (eid : String) : HResp EmpResponse :=
  match findByEmployeeId st.docs eid with
  | none => HResp.err 404 "Employee not found"
  | some doc => HResp.ok 200 (employee_helper doc)

/-! ## Listing (`main.py` lines 213-224) -/

/-- Descending insertion by key: place `x` before the first element whose
key is at most `x`'s. -/
def insertDescBy {α : Type} (key : α → Nat) (x : α) : List α → List α
  | [] => [x]
  | y :: ys => if key y ≤ key x then x :: y :: ys else y :: insertDescBy key x ys

/-- Sort a list by key, descending (models `sort("joining_date", -1)`;
MongoDB guarantees no particular order among equal keys). -/
def sortDescBy {α : Type} (key : α → Nat) (l : List α) : List α :=
  l.foldr (insertDescBy key) []

/-- The sort key of a document for `sort("joining_date", -1)`. -/
def joinKey (d : EmployeeDoc) : Nat :=
  d.joining_date.sortKey

/-- The department constraint actually placed in the query dict: `if
department:` adds the filter only when `department` is both present and
non-empty (Python truthiness), so `None` and `""` both leave the query
unrestricted. -/
def effectiveDeptFilter (department : Option String) : Option String :=
  match department with
  | some dep => if dep = "" then none else some dep
  | none => none

/-- One document against the (possibly absent) department filter. -/
def deptPred (q : Option String) (d : EmployeeDoc) : Bool :=
  match q with
  | some dep => d.department == dep
  | none => true

/-- `list_employees`: filter, sort by `joining_date` descending, then
`skip`, then `limit`, mapped through `employee_helper`; always 200. -/
def list_employees (st : StoreState) (department : Option String)
    (skip : Nat) (limit : Nat) : HResp (List EmpResponse) :=
  HResp.ok 200
    (((((sortDescBy joinKey
        (st.docs.filter (deptPred (effectiveDeptFilter department)))).drop skip).take
          limit).map employee_helper))

/-! ## Average salary by department (`main.py` lines 198-208) -/

/-- The distinct departments of the stored documents, in first-occurrence
order (MongoDB's `$group` guarantees no particular order; this is one
admissible order). -/
def deptListOf (docs : List EmployeeDoc) : List String :=
  docs.foldl (fun acc d => if acc.contains d.department then acc else acc ++ [d.department]) []

/-- The salaries of one department's documents. -/
def salariesIn (docs : List EmployeeDoc) (dep : String) : List Int :=
  (docs.filter (fun d => d.department == dep)).map (fun d => d.salary)

/-- MongoDB `$round` to 0 decimal places on the exact average `sum / n`:
round half to even (the documented `$round` tie-breaking rule). -/
def roundHalfEven (sum : Int) (n : Nat) : Int :=
  if 2 * (sum % (n : Int)) < (n : Int) then sum / (n : Int)
  else if (n : Int) < 2 * (sum % (n : Int)) then sum / (n : Int) + 1
  else if (sum / (n : Int)) % 2 = 0 then sum / (n : Int) else sum / (n : Int) + 1

/-- One row of the aggregation's `$project` stage. -/
structure AvgEntry where
  department : String
  avg_salary : Int
deriving DecidableEq, Repr

/-- `avg_salary_by_department`: group by department, average the salaries,
round; 404 when the aggregation yields no rows. -/
def avg_salary_by_department (st : StoreState) : HResp (List AvgEntry) :=
  let result := (deptListOf st.docs).map (fun dep =>
    { department := dep
      avg_salary := roundHalfEven (salariesIn st.docs dep).sum
        (salariesIn st.docs dep).length : AvgEntry })
  if result.isEmpty then HResp.err 404 "Employee not found"
  else HResp.ok 200 result

/-! ## Update (`main.py` lines 239-250) -/

/-- Request body of `PUT /employees/...` (`EmployeeUpdate`): every field
optional; `None` and absent are indistinguishable (pydantic defaults). -/
structure EmployeeUpdate where
  name : Option String := none
  department : Option String := none
  salary : Option Int := none
  joining_date : Option CalDate := none
  skills : Option (List String) := none
deriving DecidableEq, Repr

/-- Is the `$set` document non-empty, i.e. is some field not `None`? -/
def EmployeeUpdate.hasAnyField (u : EmployeeUpdate) : Bool :=
  u.name.isSome || u.department.isSome || u.salary.isSome ||
    u.joining_date.isSome || u.skills.isSome

/-- Apply the `$set` document: each supplied field overwrites, each absent
field is untouched; a supplied `joining_date` is combined with midnight
first (`main.py` lines 244-245). -/
def applySet (u : EmployeeUpdate) (d : EmployeeDoc) : EmployeeDoc :=
  { d with
    name := u.name.getD d.name
    department := u.department.getD d.department
    salary := u.salary.getD d.salary
    joining_date :=
      match u.joining_date with
      | some jd => combineMidnight jd
      | none => d.joining_date
    skills := u.skills.getD d.skills }

/-- `update_one`: transform the first element satisfying `p` by `f`;
`none` when nothing matched (`matched_count == 0`). -/
def updateFirst {α : Type} (p : α → Bool) (f : α → α) : List α → Option (List α)
  | [] => none
  | x :: xs => if p x then some (f x :: xs) else (updateFirst p f xs).map (fun ys => x :: ys)

/-- `update_employee`: 400 when no field is supplied, 404 when no document
matches, otherwise `$set` the supplied fields on the matched document and
return it re-read and mapped. -/
def update_employee (st : StoreState) (eid : String) (payload : EmployeeUpdate) :
    HResp EmpResponse × StoreState :=
  if payload.hasAnyField = false then
    (HResp.err 400 "No fields provided for update", st)
  else
    match updateFirst (fun d => d.employee_id == eid) (applySet payload) st.docs with
    | none => (HResp.err 404 "Employee not found", st)
    | some docs' =>
      let st' : StoreState := ⟨docs', st.nextId⟩
      match findByEmployeeId docs' eid with
      | some updated => (HResp.ok 200 (employee_helper updated), st')
      | none => (HResp.err 500 "Internal Server Error", st')

/-! ## Delete (`main.py` lines 255-260) -/

/-- Body of the delete response. -/
structure DeleteResult where
  success : Bool
  message : String
deriving DecidableEq, Repr

/-- `delete_employee`: `delete_one` removes the first matching document;
the route answers 200 either way, with `success` reporting whether a
document was deleted. -/
def delete_employee (st : StoreState) (eid : String) :
    HResp DeleteResult × StoreState :=
  if st.docs.any (fun d => d.employee_id == eid) then
    (HResp.ok 200 ⟨true, "Employee " ++ eid ++ " deleted"⟩,
      ⟨st.docs.eraseP (fun d => d.employee_id == eid), st.nextId⟩)
  else
    (HResp.ok 200 ⟨false, "Employee not found"⟩, st)

/-! ## Auth gate (`main.py` lines 30-72, 156-162)

The password-hash and token libraries are external collaborators; per the
spec they are "treated as opaque primitives with documented input/output
contracts".  They are modelled by executable functions honouring exactly
those contracts: `bcryptHash`/`verifyPassword` with `verify p h = (h =
bcryptHash p)`, and a JWT as its decoded claims plus a signature value that
`jwt.decode` checks against the symmetric secret.  Time is passed in
explicitly (seconds since epoch, `datetime.utcnow()`). -/

/-- Modelled bcrypt hash (`pwd_context.hash`). -/
def bcryptHash (p : String) : String :=
  "bcrypt-of:" ++ p

/-- `verify_password` (`pwd_context.verify`): does the plaintext hash to
the stored value? -/
def verify_password (plain : String) (hashed : String) : Bool :=
  hashed == bcryptHash plain

/-- `SECRET_KEY` (`main.py` line 33). -/
def SECRET_KEY : String := "your-secret-key"

/-- `ACCESS_TOKEN_EXPIRE_MINUTES` (`main.py` line 35). -/
def ACCESS_TOKEN_EXPIRE_MINUTES : Nat := 60

/-- The HMAC signature a correctly signed token carries, as a function of
the secret and the claims (modelling `HS256`). -/
def jwtSignature (secret : String) (sub : String) (exp : Nat) : String :=
  "hs256:" ++ secret ++ ":" ++ sub ++ ":" ++ toString exp

/-- A JWT as its claims (`sub`, `exp`) plus its signature. -/
structure JwtToken where
  sub : String
  exp : Nat
  sig : String
deriving DecidableEq, Repr

/-- `jwt.encode(claims, secret, HS256)`. -/
def jwtEncode (secret : String) (sub : String) (exp : Nat) : JwtToken :=
  ⟨sub, exp, jwtSignature secret sub exp⟩

/-- `create_access_token`: expiry is `utcnow() + expires_delta` when a
delta is passed, else `utcnow() + 60 minutes`; the claims are signed with
the symmetric secret. -/
def create_access_token (sub : String) (expires_delta : Option Nat)
    (now : Nat) : JwtToken :=
  let expire :=
    match expires_delta with
    | some d => now + d
    | none => now + ACCESS_TOKEN_EXPIRE_MINUTES * 60
  jwtEncode SECRET_KEY sub expire

/-- One entry of `fake_users_db`. -/
structure Credential where
  username : String
  hashed_password : String
deriving DecidableEq, Repr

/-- The fixed credential store (`main.py` lines 41-46). -/
def fake_users_db : List Credential :=
  [⟨"admin", bcryptHash "password"⟩]

/-- `fake_users_db.get(username)`. -/
def lookupUser (username : String) : Option Credential :=
  fake_users_db.find? (fun c => c.username == username)

/-- Body of a successful `POST /token`. -/
structure TokenOut where
  access_token : JwtToken
  token_type : String
deriving DecidableEq, Repr

/-- `login` (`main.py` lines 156-162): 401 unless the username is known and
the password verifies; on success a signed token with the username as
subject. -/
def login (now : Nat) (username : String) (password : String) : HResp TokenOut :=
  match lookupUser username with
  | none => HResp.err 401 "Invalid credentials"
  | some user =>
    if verify_password password user.hashed_password then
      HResp.ok 200 ⟨create_access_token user.username none now, "bearer"⟩
    else
      HResp.err 401 "Invalid credentials"

/-- `get_current_user` (`main.py` lines 60-72), including the
`OAuth2PasswordBearer` step that rejects a request with no bearer token:
`jwt.decode` verifies the signature against `SECRET_KEY` and rejects an
expired token; the decoded subject must be a known credential.  `none`
means the request is answered 401 before any handler runs. -/
def get_current_user (now : Nat) (token : Option JwtToken) : Option String :=
  match token with
  | none => none
  | some t =>
    if t.sig ≠ jwtSignature SECRET_KEY t.sub t.exp then none
    else if t.exp ≤ now then none
    else
      match lookupUser t.sub with
      | none => none
      | some _ => some t.sub

/-! ## The routed surface (the FastAPI app)

Each employee route carries `dependencies=[Depends(get_current_user)]`;
`GET /` and `POST /token` do not. -/

/-- A request to the service. -/
inductive ApiRequest where
  | root : ApiRequest
  | token : String → String → ApiRequest
  | createEmp : EmployeeCreate → ApiRequest
  | searchEmp : String → Nat → Nat → ApiRequest
  | avgSalary : ApiRequest
  | listEmp : Option String → Nat → Nat → ApiRequest
  | getEmp : String → ApiRequest
  | updateEmp : String → EmployeeUpdate → ApiRequest
  | deleteEmp : String → ApiRequest
deriving DecidableEq, Repr

/-- A response body of any route. -/
inductive ApiBody where
  | msg : String → ApiBody
  | tok : TokenOut → ApiBody
  | emp : EmpResponse → ApiBody
  | emps : List EmpResponse → ApiBody
  | avgs : List AvgEntry → ApiBody
  | del : DeleteResult → ApiBody
deriving DecidableEq, Repr

/-- Repackage a handler's outcome into the routed response type. -/
def HResp.mapBody {α β : Type} (f : α → β) : HResp α → HResp β
  | HResp.ok s v => HResp.ok s (f v)
  | HResp.err s d => HResp.err s d

/-- Is the route one of the `/employees*` routes (every route except the
root health check and `POST /token`)? -/
def isEmployeeRoute : ApiRequest → Bool
  | ApiRequest.root => false
  | ApiRequest.token _ _ => false
  | _ => true

/-- The `dependencies=[Depends(get_current_user)]` gate attached to one
route: the handler continuation runs only after authentication succeeds,
otherwise the request is answered 401 and no handler runs. -/
def requireAuth (now : Nat) (auth : Option JwtToken) (st : StoreState)
    (k : String → HResp ApiBody × StoreState) : HResp ApiBody × StoreState :=
  match get_current_user now auth with
  | none => (HResp.err 401 "Invalid token", st)
  | some u => k u

/-- The routed application: employee routes run their handler only after
`get_current_user` succeeds (each route's declared dependency), answering
401 otherwise; the root health check and `POST /token` have no such
dependency. -/
def serve (now : Nat) (auth : Option JwtToken) (req : ApiRequest)
    (st : StoreState) : HResp ApiBody × StoreState :=
  match req with
  | ApiRequest.root => (HResp.ok 200 (ApiBody.msg "FastAPI + MongoDB API is running!"), st)
  | ApiRequest.token u p => ((login now u p).mapBody ApiBody.tok, st)
  | ApiRequest.createEmp payload =>
    requireAuth now auth st (fun _ =>
      let (r, st') := create_employee st payload
      (r.mapBody ApiBody.emp, st'))
  | ApiRequest.searchEmp skill skip limit =>
    requireAuth now auth st (fun _ =>
      ((search_employees_by_skill st skill skip limit).mapBody ApiBody.emps, st))
  | ApiRequest.avgSalary =>
    requireAuth now auth st (fun _ =>
      ((avg_salary_by_department st).mapBody ApiBody.avgs, st))
  | ApiRequest.listEmp dep skip limit =>
    requireAuth now auth st (fun _ =>
      ((list_employees st dep skip limit).mapBody ApiBody.emps, st))
  | ApiRequest.getEmp eid =>
    requireAuth now auth st (fun _ => ((get_employee st eid).mapBody ApiBody.emp, st))
  | ApiRequest.updateEmp eid payload =>
    requireAuth now auth st (fun _ =>
      let (r, st') := update_employee st eid payload
      (r.mapBody ApiBody.emp, st'))
  | ApiRequest.deleteEmp eid =>
    requireAuth now auth st (fun _ =>
      let (r, st') := delete_employee st eid
      (r.mapBody ApiBody.del, st'))

/-! ## Claim theorems -/

/-- C10: a department query parameter that is present but equal to the
empty string behaves exactly like an absent one — the Python truthiness
test `if department:` adds no filter in either case, so listing is
unrestricted across all departments. -/
theorem list_with_empty_department_is_unrestricted
    (st : StoreState) (skip limit : Nat) :
    list_employees st (some "") skip limit = list_employees st none skip limit := rfl

/-! ### Average salary by department (C2) -/

theorem deptListOf_mem_aux (docs : List EmployeeDoc) : ∀ (acc : List String) (dep : String),
    dep ∈ docs.foldl
        (fun acc d => if acc.contains d.department then acc else acc ++ [d.department]) acc
      ↔ dep ∈ acc ∨ ∃ d ∈ docs, d.department = dep := by
  induction docs with
  | nil => intro acc dep; simp
  | cons d docs ih =>
    intro acc dep
    rw [List.foldl_cons]
    by_cases hc : acc.contains d.department
    · rw [if_pos hc]
      rw [ih acc dep]
      constructor
      · rintro (h | h)
        · exact Or.inl h
        · exact Or.inr ⟨h.choose, List.mem_cons_of_mem _ h.choose_spec.1, h.choose_spec.2⟩
      · rintro (h | ⟨e, he, hdep⟩)
        · exact Or.inl h
        · rcases List.mem_cons.mp he with rfl | he'
          · subst hdep
            exact Or.inl (by simpa using hc)
          · exact Or.inr ⟨e, he', hdep⟩
    · rw [if_neg hc]
      rw [ih (acc ++ [d.department]) dep]
      simp only [List.mem_append, List.mem_singleton]
      constructor
      · rintro ((h | h) | h)
        · exact Or.inl h
        · exact Or.inr ⟨d, List.mem_cons_self d docs, h.symm⟩
        · exact Or.inr ⟨h.choose, List.mem_cons_of_mem _ h.choose_spec.1, h.choose_spec.2⟩
      · rintro (h | ⟨e, he, hdep⟩)
        · exact Or.inl (Or.inl h)
        · rcases List.mem_cons.mp he with rfl | he'
          · exact Or.inl (Or.inr hdep.symm)
          · exact Or.inr ⟨e, he', hdep⟩

theorem deptListOf_mem (docs : List EmployeeDoc) (dep : String) :
    dep ∈ deptListOf docs ↔ ∃ d ∈ docs, d.department = dep := by
  rw [deptListOf, deptListOf_mem_aux docs [] dep]
  simp

theorem deptListOf_nodup_aux (docs : List EmployeeDoc) : ∀ acc : List String,
    acc.Nodup →
    (docs.foldl
      (fun acc d => if acc.contains d.department then acc else acc ++ [d.department]) acc).Nodup := by
  induction docs with
  | nil => intro acc h; simpa using h
  | cons d docs ih =>
    intro acc h
    rw [List.foldl_cons]
    by_cases hc : acc.contains d.department
    · rw [if_pos hc]; exact ih acc h
    · rw [if_neg hc]
      refine ih (acc ++ [d.department]) ?_
      rw [List.nodup_append]
      refine ⟨h, List.nodup_singleton _, ?_⟩
      intro x hx hx'
      rcases List.mem_singleton.mp hx' with rfl
      exact hc (by simpa using hx)

theorem deptListOf_nodup (docs : List EmployeeDoc) : (deptListOf docs).Nodup :=
  deptListOf_nodup_aux docs [] List.nodup_nil

/-- `roundHalfEven sum n` is a nearest integer to the exact mean `sum / n`:
`|sum/n - roundHalfEven sum n| ≤ 1/2`, cleared of denominators. -/
theorem roundHalfEven_nearest (sum : Int) (n : Nat) (hn : 0 < n) :
    (2 * (roundHalfEven sum n * n - sum)).natAbs ≤ n := by
  have hn' : (0 : Int) < (n : Int) := by exact_mod_cast hn
  have h1 : (sum / (n : Int)) * (n : Int) + sum % (n : Int) = sum := by
    rw [mul_comm]; exact Int.ediv_add_emod sum n
  have h2 : 0 ≤ sum % (n : Int) := Int.emod_nonneg sum (by omega)
  have h3 : sum % (n : Int) < (n : Int) := Int.emod_lt_of_pos sum hn'
  have e1 : (sum / (n : Int) + 1) * (n : Int) = (sum / (n : Int)) * (n : Int) + (n : Int) := by
    ring
  rw [roundHalfEven]
  split_ifs <;> (try simp only [e1]) <;> omega

/-- The aggregation yields no rows exactly when the collection is empty. -/
theorem deptListOf_eq_nil_iff (docs : List EmployeeDoc) :
    deptListOf docs = [] ↔ docs = [] := by
  constructor
  · intro h
    cases docs with
    | nil => rfl
    | cons d rest =>
      exfalso
      have hmem : d.department ∈ deptListOf (d :: rest) :=
        (deptListOf_mem _ _).mpr ⟨d, List.mem_cons_self d rest, rfl⟩
      rw [h] at hmem
      simp at hmem
  · intro h
    rw [h]
    rfl

/-- C2: the average-salary aggregation fails with 404 exactly when no
employee records exist; otherwise it returns one row per department
occurring in the store (each department exactly once, in no guaranteed
order), whose `avg_salary` is the arithmetic mean of that department's
salaries rounded to a nearest integer. -/
theorem avg_salary_by_department_correct (st : StoreState) :
    (avg_salary_by_department st = HResp.err 404 "Employee not found" ↔ st.docs = []) ∧
    (∀ rows, avg_salary_by_department st = HResp.ok 200 rows →
      (rows.map AvgEntry.department).Nodup ∧
      (∀ dep : String,
        dep ∈ rows.map AvgEntry.department ↔ ∃ d ∈ st.docs, d.department = dep) ∧
      (∀ e ∈ rows,
        0 < (salariesIn st.docs e.department).length ∧
        e.avg_salary =
          roundHalfEven (salariesIn st.docs e.department).sum
            (salariesIn st.docs e.department).length ∧
        (2 * (e.avg_salary * ((salariesIn st.docs e.department).length : Int) -
            (salariesIn st.docs e.department).sum)).natAbs
          ≤ (salariesIn st.docs e.department).length)) := by
  have hrowsof : ∀ rows, avg_salary_by_department st = HResp.ok 200 rows →
      rows = (deptListOf st.docs).map (fun dep =>
        { department := dep
          avg_salary := roundHalfEven (salariesIn st.docs dep).sum
            (salariesIn st.docs dep).length : AvgEntry }) := by
    intro rows h
    rw [avg_salary_by_department] at h
    by_cases hemp : ((deptListOf st.docs).map (fun dep =>
        { department := dep
          avg_salary := roundHalfEven (salariesIn st.docs dep).sum
            (salariesIn st.docs dep).length : AvgEntry })).isEmpty
    · rw [if_pos hemp] at h; exact absurd h (by simp)
    · rw [if_neg hemp] at h; cases h; rfl
  have hmapdep : ∀ rows, avg_salary_by_department st = HResp.ok 200 rows →
      rows.map AvgEntry.department = deptListOf st.docs := by
    intro rows h
    rw [hrowsof rows h, List.map_map]
    have hid : (AvgEntry.department ∘ fun dep =>
        ({ department := dep
           avg_salary := roundHalfEven (salariesIn st.docs dep).sum
             (salariesIn st.docs dep).length } : AvgEntry)) = id := by
      funext dep; rfl
    rw [hid, List.map_id]
  constructor
  · rw [avg_salary_by_department]
    constructor
    · intro h
      by_cases hemp : ((deptListOf st.docs).map (fun dep =>
          { department := dep
            avg_salary := roundHalfEven (salariesIn st.docs dep).sum
              (salariesIn st.docs dep).length : AvgEntry })).isEmpty
      · rw [List.isEmpty_iff, List.map_eq_nil_iff] at hemp
        exact (deptListOf_eq_nil_iff st.docs).mp hemp
      · rw [if_neg hemp] at h
        exact absurd h (by simp)
    · intro h
      have hnil : deptListOf st.docs = [] := (deptListOf_eq_nil_iff st.docs).mpr h
      rw [hnil]
      rfl
  · intro rows h
    have hdep := hmapdep rows h
    refine ⟨by rw [hdep]; exact deptListOf_nodup st.docs, ?_, ?_⟩
    · intro dep
      rw [hdep, deptListOf_mem]
    · intro e he
      rw [hrowsof rows h] at he
      rcases List.mem_map.mp he with ⟨dep, hdepmem, rfl⟩
      have hpos : 0 < (salariesIn st.docs dep).length := by
        rw [deptListOf_mem] at hdepmem
        rcases hdepmem with ⟨d, hd, hdd⟩
        rw [salariesIn, List.length_map]
        apply List.length_pos.mpr
        intro hnil
        have hdf : d ∈ st.docs.filter (fun x => x.department == dep) := by
          rw [List.mem_filter]
          exact ⟨hd, by simp [hdd]⟩
        rw [hnil] at hdf
        simp at hdf
      exact ⟨hpos, rfl, roundHalfEven_nearest _ _ hpos⟩

/-- Two Engineering employees with salaries 100 and 200 (the spec's
average-salary example). -/
def egAvgDoc1 : EmployeeDoc :=
  ⟨0, "E1", "A", "Eng", 100, combineMidnight ⟨2020, 1, 1⟩, []⟩

/-- Second document of the average-salary example. -/
def egAvgDoc2 : EmployeeDoc :=
  ⟨1, "E2", "B", "Eng", 200, combineMidnight ⟨2020, 1, 2⟩, []⟩

/-- The store of the average-salary example. -/
def egStoreAvg : StoreState := ⟨[egAvgDoc1, egAvgDoc2], 2⟩

/-- The single aggregation row of the average-salary example. -/
def egAvgRow : AvgEntry := ⟨"Eng", 150⟩

theorem avg_salary_by_department_correct_witness :
    0 < (salariesIn egStoreAvg.docs egAvgRow.department).length ∧
    egAvgRow.avg_salary =
      roundHalfEven (salariesIn egStoreAvg.docs egAvgRow.department).sum
        (salariesIn egStoreAvg.docs egAvgRow.department).length ∧
    (2 * (egAvgRow.avg_salary * ((salariesIn egStoreAvg.docs egAvgRow.department).length : Int) -
        (salariesIn egStoreAvg.docs egAvgRow.department).sum)).natAbs
      ≤ (salariesIn egStoreAvg.docs egAvgRow.department).length :=
  ((avg_salary_by_department_correct egStoreAvg).2 [egAvgRow] (by decide)).2.2 egAvgRow
    (by decide)

/-! ### Create and get (C3, C4) -/

/-- In a well-formed store, no existing document carries the next fresh
`_id`, so the re-read after `insert_one` finds exactly the new document. -/
theorem find_inserted (st : StoreState) (doc : EmployeeDoc) (hwf : st.WF)
    (hoid : doc.oid = st.nextId) :
    (st.docs ++ [doc]).find? (fun d => d.oid == st.nextId) = some doc := by
  rw [List.find?_append]
  have hnone : st.docs.find? (fun d => d.oid == st.nextId) = none := by
    rw [List.find?_eq_none]
    intro x hx
    have := hwf x hx
    simp
    omega
  rw [hnone]
  simp [hoid]

/-- C3: creating an employee whose `employee_id` is fresh succeeds with
status 201, and a subsequent get-by-id returns the very same mapped record,
whose fields equal the submitted ones and whose `joining_date` is the
date-only ISO rendering of the submitted date; `employee_helper` strips the
midnight time component whether the stored value is a date-time or a bare
date. -/
theorem create_then_get_roundtrip (st : StoreState) (payload : EmployeeCreate)
    (hwf : st.WF)
    (hfresh : findByEmployeeId st.docs payload.employee_id = none) :
    ∃ (st' : StoreState) (r : EmpResponse),
      create_employee st payload = (HResp.ok 201 r, st') ∧
      get_employee st' payload.employee_id = HResp.ok 200 r ∧
      r.employee_id = payload.employee_id ∧
      r.name = payload.name ∧
      r.department = payload.department ∧
      r.salary = payload.salary ∧
      r.joining_date = payload.joining_date.isoformat ∧
      r.skills = payload.skills ∧
      (∀ (d : CalDate) (t : Nat) (doc : EmployeeDoc),
        (employee_helper { doc with joining_date := BsonDate.dateTime d t }).joining_date
            = d.isoformat ∧
        (employee_helper { doc with joining_date := BsonDate.dateOnly d }).joining_date
            = d.isoformat) := by
  let newDoc : EmployeeDoc :=
    { oid := st.nextId
      employee_id := payload.employee_id
      name := payload.name
      department := payload.department
      salary := payload.salary
      joining_date := combineMidnight payload.joining_date
      skills := payload.skills }
  refine ⟨⟨st.docs ++ [newDoc], st.nextId + 1⟩, employee_helper newDoc, ?_, ?_, rfl, rfl,
    rfl, rfl, rfl, rfl, fun d t doc => ⟨rfl, rfl⟩⟩
  · rw [create_employee, hfresh]
    have := find_inserted st newDoc hwf rfl
    simp only [this]
  · rw [get_employee, findByEmployeeId, List.find?_append]
    rw [show st.docs.find? (fun d => d.employee_id == payload.employee_id) = none from hfresh]
    simp

/-- C4: the create operation conflicts on a duplicate `employee_id`: when a
document with the submitted `employee_id` already exists the handler
answers 400 and leaves the store untouched, while the first create of a
given `employee_id` (against a well-formed store) succeeds with 201 and
appends exactly one document. -/
theorem create_duplicate_conflict (st : StoreState) (payload : EmployeeCreate) :
    (∀ d, findByEmployeeId st.docs payload.employee_id = some d →
      create_employee st payload = (HResp.err 400 "employee_id already exists", st)) ∧
    (findByEmployeeId st.docs payload.employee_id = none → st.WF →
      ∃ (r : EmpResponse) (newDoc : EmployeeDoc),
        create_employee st payload = (HResp.ok 201 r, ⟨st.docs ++ [newDoc], st.nextId + 1⟩) ∧
        newDoc.employee_id = payload.employee_id) := by
  constructor
  · intro d hd
    rw [create_employee, hd]
  · intro hfresh hwf
    refine ⟨employee_helper { oid := st.nextId
                              employee_id := payload.employee_id
                              name := payload.name
                              department := payload.department
                              salary := payload.salary
                              joining_date := combineMidnight payload.joining_date
                              skills := payload.skills },
      { oid := st.nextId
        employee_id := payload.employee_id
        name := payload.name
        department := payload.department
        salary := payload.salary
        joining_date := combineMidnight payload.joining_date
        skills := payload.skills }, ?_, rfl⟩
    rw [create_employee, hfresh]
    have hfind := find_inserted st
      { oid := st.nextId
        employee_id := payload.employee_id
        name := payload.name
        department := payload.department
        salary := payload.salary
        joining_date := combineMidnight payload.joining_date
        skills := payload.skills } hwf rfl
    simp only [hfind]

/-- A concrete well-formed create payload. -/
def egPayload : EmployeeCreate :=
  ⟨"E123", "Alice", "Eng", 100, ⟨2024, 5, 7⟩, ["Python", "C++"]⟩

/-- The empty store. -/
def egEmptyStore : StoreState := ⟨[], 0⟩

/-- A stored document that already uses `employee_id` `E123`. -/
def egDocE123 : EmployeeDoc :=
  ⟨0, "E123", "Bob", "Sales", 50, combineMidnight ⟨2020, 2, 3⟩, []⟩

/-- A store already holding `E123`. -/
def egStoreE123 : StoreState := ⟨[egDocE123], 1⟩

theorem create_then_get_roundtrip_witness :
    ∃ (st' : StoreState) (r : EmpResponse),
      create_employee egEmptyStore egPayload = (HResp.ok 201 r, st') ∧
      get_employee st' egPayload.employee_id = HResp.ok 200 r ∧
      r.employee_id = egPayload.employee_id ∧
      r.name = egPayload.name ∧
      r.department = egPayload.department ∧
      r.salary = egPayload.salary ∧
      r.joining_date = egPayload.joining_date.isoformat ∧
      r.skills = egPayload.skills ∧
      (∀ (d : CalDate) (t : Nat) (doc : EmployeeDoc),
        (employee_helper { doc with joining_date := BsonDate.dateTime d t }).joining_date
            = d.isoformat ∧
        (employee_helper { doc with joining_date := BsonDate.dateOnly d }).joining_date
            = d.isoformat) :=
  create_then_get_roundtrip egEmptyStore egPayload (by intro d hd; simp [egEmptyStore] at hd)
    rfl

theorem create_duplicate_conflict_witness :
    create_employee egStoreE123 egPayload
        = (HResp.err 400 "employee_id already exists", egStoreE123) ∧
    (∃ (r : EmpResponse) (newDoc : EmployeeDoc),
      create_employee egEmptyStore egPayload
          = (HResp.ok 201 r, ⟨egEmptyStore.docs ++ [newDoc], egEmptyStore.nextId + 1⟩) ∧
      newDoc.employee_id = egPayload.employee_id) :=
  ⟨(create_duplicate_conflict egStoreE123 egPayload).1 egDocE123 rfl,
   (create_duplicate_conflict egEmptyStore egPayload).2 rfl
     (by intro d hd; simp [egEmptyStore] at hd)⟩

/-! ### Update (C5) -/

theorem updateFirst_eq_none {α : Type} (p : α → Bool) (f : α → α) :
    ∀ l : List α, l.find? p = none → updateFirst p f l = none := by
  intro l
  induction l with
  | nil => intro _; rfl
  | cons x xs ih =>
    intro h
    rw [List.find?_cons] at h
    rw [updateFirst]
    cases hx : p x with
    | true => rw [hx] at h; exact absurd h (by simp)
    | false =>
      rw [hx] at h
      rw [if_neg (by simp [hx]), ih h]
      rfl

theorem updateFirst_first_match {α : Type} (p : α → Bool) (f : α → α)
    (d : α) (post : List α) : ∀ pre : List α,
    (∀ y ∈ pre, p y = false) → p d = true →
    updateFirst p f (pre ++ d :: post) = some (pre ++ f d :: post) := by
  intro pre
  induction pre with
  | nil =>
    intro _ hd
    rw [List.nil_append, updateFirst, if_pos hd]
    rfl
  | cons y ys ih =>
    intro hpre hd
    have hy : p y = false := hpre y (List.mem_cons_self y ys)
    rw [List.cons_append, updateFirst, if_neg (by simp [hy]),
      ih (fun z hz => hpre z (List.mem_cons_of_mem y hz)) hd]
    rfl

theorem find?_first_match {α : Type} (p : α → Bool) (d : α) (post : List α)
    (pre : List α) (hpre : ∀ y ∈ pre, p y = false) (hd : p d = true) :
    (pre ++ d :: post).find? p = some d := by
  rw [List.find?_append]
  have hnone : pre.find? p = none := by
    rw [List.find?_eq_none]
    intro x hx
    simp [hpre x hx]
  rw [hnone, List.find?_cons, hd]
  rfl

/-- C5: the update operation answers 400 when every body field is absent
and 404 when no document matches the `employee_id` (the store untouched in
both cases); otherwise it overwrites exactly the supplied (non-null) fields
of the first matching document — every other field of that document, every
other document, and the rest of the store state are unchanged — and returns
the mapped updated record. -/
theorem update_applies_exactly_supplied_fields (st : StoreState) (eid : String)
    (payload : EmployeeUpdate) :
    (payload.hasAnyField = false →
      update_employee st eid payload = (HResp.err 400 "No fields provided for update", st)) ∧
    (payload.hasAnyField = true → findByEmployeeId st.docs eid = none →
      update_employee st eid payload = (HResp.err 404 "Employee not found", st)) ∧
    (∀ pre d post,
      payload.hasAnyField = true →
      st.docs = pre ++ d :: post →
      (∀ y ∈ pre, (y.employee_id == eid) = false) →
      (d.employee_id == eid) = true →
      update_employee st eid payload =
        (HResp.ok 200 (employee_helper (applySet payload d)),
         ⟨pre ++ applySet payload d :: post, st.nextId⟩)) ∧
    (∀ d : EmployeeDoc,
      (applySet payload d).oid = d.oid ∧
      (applySet payload d).employee_id = d.employee_id ∧
      (payload.name = none → (applySet payload d).name = d.name) ∧
      (∀ v, payload.name = some v → (applySet payload d).name = v) ∧
      (payload.department = none → (applySet payload d).department = d.department) ∧
      (∀ v, payload.department = some v → (applySet payload d).department = v) ∧
      (payload.salary = none → (applySet payload d).salary = d.salary) ∧
      (∀ v, payload.salary = some v → (applySet payload d).salary = v) ∧
      (payload.joining_date = none → (applySet payload d).joining_date = d.joining_date) ∧
      (∀ v, payload.joining_date = some v →
        (applySet payload d).joining_date = combineMidnight v) ∧
      (payload.skills = none → (applySet payload d).skills = d.skills) ∧
      (∀ v, payload.skills = some v → (applySet payload d).skills = v)) := by
  refine ⟨?_, ?_, ?_, ?_⟩
  · intro h
    rw [update_employee, if_pos h]
  · intro h hfind
    rw [update_employee, if_neg (by simp [h]),
      updateFirst_eq_none _ _ st.docs hfind]
  · intro pre d post h hdocs hpre hd
    rw [update_employee, if_neg (by simp [h]), hdocs,
      updateFirst_first_match _ _ d post pre hpre hd]
    have hfind : findByEmployeeId (pre ++ applySet payload d :: post) eid
        = some (applySet payload d) := by
      refine find?_first_match _ _ post pre hpre ?_
      show ((applySet payload d).employee_id == eid) = true
      exact hd
    simp only [hfind]
  · intro d
    refine ⟨rfl, rfl, ?_, ?_, ?_, ?_, ?_, ?_, ?_, ?_, ?_, ?_⟩ <;>
      first
        | (intro h; simp [applySet, h])
        | (intro v h; simp [applySet, h])

/-- Body payload updating only the name. -/
def egUpdate : EmployeeUpdate := { name := some "Carol" }

theorem update_applies_exactly_supplied_fields_witness :
    update_employee egStoreE123 "E123" egUpdate =
      (HResp.ok 200 (employee_helper (applySet egUpdate egDocE123)),
       ⟨[] ++ applySet egUpdate egDocE123 :: [], egStoreE123.nextId⟩) ∧
    update_employee egStoreE123 "E123" {} =
      (HResp.err 400 "No fields provided for update", egStoreE123) ∧
    (applySet egUpdate egDocE123).salary = egDocE123.salary :=
  ⟨(update_applies_exactly_supplied_fields egStoreE123 "E123" egUpdate).2.2.1 [] egDocE123 []
     rfl rfl (by intro y hy; simp at hy) rfl,
   (update_applies_exactly_supplied_fields egStoreE123 "E123" {}).1 rfl,
   ((update_applies_exactly_supplied_fields egStoreE123 "E123" egUpdate).2.2.2
     egDocE123).2.2.2.2.2.2.1 rfl⟩

/-! ### Delete (C6) -/

theorem eraseP_first_match {α : Type} (p : α → Bool) (d : α) (post : List α) :
    ∀ pre : List α, (∀ y ∈ pre, p y = false) → p d = true →
    (pre ++ d :: post).eraseP p = pre ++ post := by
  intro pre
  induction pre with
  | nil =>
    intro _ hd
    rw [List.nil_append, List.eraseP_cons, hd]
    rfl
  | cons y ys ih =>
    intro hpre hd
    have hy : p y = false := hpre y (List.mem_cons_self y ys)
    rw [List.cons_append, List.eraseP_cons, hy]
    simp only [cond_false, List.cons_append]
    rw [ih (fun z hz => hpre z (List.mem_cons_of_mem y hz)) hd]

/-- C6: deleting a stored `employee_id` removes exactly that document and
answers `{success := true, ...}` with 200, after which get-by-id on that id
is a 404; deleting an absent `employee_id` answers
`{success := false, ...}` still with HTTP 200 and leaves the store
untouched. -/
theorem delete_removes_or_reports (st : StoreState) (eid : String) :
    (∀ pre d post,
      st.docs = pre ++ d :: post →
      (∀ y ∈ pre, (y.employee_id == eid) = false) →
      (d.employee_id == eid) = true →
      (∀ y ∈ post, (y.employee_id == eid) = false) →
      delete_employee st eid =
        (HResp.ok 200 ⟨true, "Employee " ++ eid ++ " deleted"⟩,
         ⟨pre ++ post, st.nextId⟩) ∧
      get_employee ⟨pre ++ post, st.nextId⟩ eid = HResp.err 404 "Employee not found") ∧
    (findByEmployeeId st.docs eid = none →
      delete_employee st eid = (HResp.ok 200 ⟨false, "Employee not found"⟩, st)) := by
  constructor
  · intro pre d post hdocs hpre hd hpost
    have hnone : findByEmployeeId (pre ++ post) eid = none := by
      rw [findByEmployeeId.eq_def, List.find?_eq_none]
      intro x hx
      rcases List.mem_append.mp hx with h | h
      · simp [hpre x h]
      · simp [hpost x h]
    constructor
    · have hany : (st.docs.any (fun x => x.employee_id == eid)) = true := by
        rw [hdocs, List.any_eq_true]
        exact ⟨d, List.mem_append_right _ (List.mem_cons_self d post), hd⟩
      rw [delete_employee, if_pos hany, hdocs,
        eraseP_first_match _ d post pre hpre hd]
    · simp [get_employee, hnone]
  · intro hfind
    have hany : (st.docs.any (fun x => x.employee_id == eid)) = false := by
      rw [List.any_eq_false]
      intro x hx
      rw [findByEmployeeId.eq_def, List.find?_eq_none] at hfind
      simpa using hfind x hx
    rw [delete_employee, if_neg (by simp [hany])]

theorem delete_removes_or_reports_witness :
    (delete_employee egStoreE123 "E123" =
        (HResp.ok 200 ⟨true, "Employee " ++ "E123" ++ " deleted"⟩,
         ⟨([] : List EmployeeDoc) ++ [], egStoreE123.nextId⟩) ∧
      get_employee ⟨([] : List EmployeeDoc) ++ [], egStoreE123.nextId⟩ "E123" =
        HResp.err 404 "Employee not found") ∧
    delete_employee egStoreE123 "E999" =
      (HResp.ok 200 ⟨false, "Employee not found"⟩, egStoreE123) :=
  ⟨(delete_removes_or_reports egStoreE123 "E123").1 [] egDocE123 [] rfl
     (by intro y hy; simp at hy) rfl (by intro y hy; simp at hy),
   (delete_removes_or_reports egStoreE123 "E999").2 rfl⟩

/-! ### Listing (C7) -/

theorem insertDescBy_perm {α : Type} (key : α → Nat) (x : α) :
    ∀ l : List α, (insertDescBy key x l).Perm (x :: l) := by
  intro l
  induction l with
  | nil => exact List.Perm.refl _
  | cons y ys ih =>
    rw [insertDescBy]
    by_cases h : key y ≤ key x
    · rw [if_pos h]
    · rw [if_neg h]
      exact List.Perm.trans (List.Perm.cons y ih) (List.Perm.swap x y ys)

theorem sortDescBy_perm {α : Type} (key : α → Nat) (l : List α) :
    (sortDescBy key l).Perm l := by
  induction l with
  | nil => exact List.Perm.refl _
  | cons x xs ih =>
    have hstep : sortDescBy key (x :: xs) = insertDescBy key x (sortDescBy key xs) := rfl
    rw [hstep]
    exact (insertDescBy_perm key x _).trans (List.Perm.cons x ih)

theorem insertDescBy_pairwise {α : Type} (key : α → Nat) (x : α) :
    ∀ l : List α, List.Pairwise (fun a b => key b ≤ key a) l →
    List.Pairwise (fun a b => key b ≤ key a) (insertDescBy key x l) := by
  intro l
  induction l with
  | nil => intro _; exact List.pairwise_singleton _ _
  | cons y ys ih =>
    intro h
    rw [insertDescBy]
    by_cases hle : key y ≤ key x
    · rw [if_pos hle]
      refine List.Pairwise.cons ?_ h
      intro z hz
      rcases List.mem_cons.mp hz with rfl | hz'
      · exact hle
      · exact le_trans (List.rel_of_pairwise_cons h hz') hle
    · rw [if_neg hle]
      refine List.Pairwise.cons ?_ (ih (List.Pairwise.of_cons h))
      intro z hz
      have hz2 : z ∈ x :: ys := (insertDescBy_perm key x ys).mem_iff.mp hz
      rcases List.mem_cons.mp hz2 with rfl | hz'
      · exact le_of_not_le hle
      · exact List.rel_of_pairwise_cons h hz'

theorem sortDescBy_pairwise {α : Type} (key : α → Nat) (l : List α) :
    List.Pairwise (fun a b => key b ≤ key a) (sortDescBy key l) := by
  induction l with
  | nil => exact List.Pairwise.nil
  | cons x xs ih => exact insertDescBy_pairwise key x _ ih

/-- C7 (amended): the list operation never fails — it always answers 200
with the filtered docs sorted by `joining_date` descending, `skip` and then
`limit` applied after the ordering; it filters by exact department match
when a nonempty department is provided (an empty department string behaves
as absent, leaving the listing unrestricted, as does omitting it); with no
paging in effect the result is exactly the filtered records. -/
theorem list_orders_filters_pages (st : StoreState) (department : Option String)
    (skip limit : Nat) :
    (list_employees st department skip limit
        = HResp.ok 200
          ((((sortDescBy joinKey
              (st.docs.filter (deptPred (effectiveDeptFilter department)))).drop skip).take
                limit).map employee_helper)) ∧
    List.Pairwise (fun a b => joinKey b ≤ joinKey a)
      (((sortDescBy joinKey
        (st.docs.filter (deptPred (effectiveDeptFilter department)))).drop skip).take limit) ∧
    (∀ dep : String, department = some dep → dep ≠ "" →
      ∀ r ∈ (((sortDescBy joinKey
          (st.docs.filter (deptPred (effectiveDeptFilter department)))).drop skip).take limit),
        r.department = dep) ∧
    (skip = 0 → st.docs.length ≤ limit →
      ((((sortDescBy joinKey
          (st.docs.filter (deptPred (effectiveDeptFilter department)))).drop skip).take
            limit)).Perm
        (st.docs.filter (deptPred (effectiveDeptFilter department)))) := by
  refine ⟨rfl, ?_, ?_, ?_⟩
  · exact List.Pairwise.sublist
      (List.Sublist.trans (List.take_sublist _ _) (List.drop_sublist _ _))
      (sortDescBy_pairwise joinKey _)
  · intro dep hdep hne r hr
    subst hdep
    have heff : effectiveDeptFilter (some dep) = some dep := by
      rw [effectiveDeptFilter]
      exact if_neg hne
    rw [heff] at hr
    have h1 : r ∈ sortDescBy joinKey (st.docs.filter (deptPred (some dep))) :=
      (List.Sublist.trans (List.take_sublist _ _) (List.drop_sublist _ _)).subset hr
    have h2 : r ∈ st.docs.filter (deptPred (some dep)) :=
      (sortDescBy_perm joinKey _).mem_iff.mp h1
    have h3 := (List.mem_filter.mp h2).2
    rw [deptPred] at h3
    exact eq_of_beq h3
  · intro hskip hlen
    subst hskip
    rw [List.drop_zero]
    have hlen2 : (sortDescBy joinKey
        (st.docs.filter (deptPred (effectiveDeptFilter department)))).length ≤ limit := by
      rw [(sortDescBy_perm joinKey _).length_eq]
      exact le_trans (List.length_filter_le _ _) hlen
    rw [List.take_of_length_le hlen2]
    exact sortDescBy_perm joinKey _

/-- C7 counterexample to the claim as frozen: with one stored record in
department `Eng` and the department parameter provided as the empty string,
the code returns that record unrestricted — an exact department filter on
the provided value would have returned no record with department `""`. -/
theorem list_provided_empty_department_not_filtered :
    list_employees ⟨[egAvgDoc1], 1⟩ (some "") 0 10
        = HResp.ok 200 [employee_helper egAvgDoc1] ∧
    (employee_helper egAvgDoc1).department ≠ "" := by
  constructor
  · rfl
  · decide

theorem list_orders_filters_pages_witness :
    ((((sortDescBy joinKey
        (egStoreAvg.docs.filter (deptPred (effectiveDeptFilter (some "Eng"))))).drop 0).take
          10)).Perm
      (egStoreAvg.docs.filter (deptPred (effectiveDeptFilter (some "Eng")))) ∧
    egAvgDoc1.department = "Eng" :=
  ⟨(list_orders_filters_pages egStoreAvg (some "Eng") 0 10).2.2.2 rfl (by decide),
   (list_orders_filters_pages egStoreAvg (some "Eng") 0 10).2.2.1 "Eng" rfl (by decide)
     egAvgDoc1 (by decide)⟩

/-! ### Login (C8) and the auth gate (C9) -/

/-- C8: `POST /token` answers 401 exactly when the username is unknown or
the password does not verify against the stored hash; on success it
returns a `bearer`-type token whose subject claim is the username and
whose expiration is 60 minutes after issuance. -/
theorem login_401_iff_bad_credentials (now : Nat) (username password : String) :
    (login now username password = HResp.err 401 "Invalid credentials"
      ↔ ¬ ∃ user, lookupUser username = some user ∧
          verify_password password user.hashed_password = true) ∧
    (∀ user, lookupUser username = some user →
      verify_password password user.hashed_password = true →
      ∃ t : JwtToken,
        login now username password = HResp.ok 200 ⟨t, "bearer"⟩ ∧
        t.sub = username ∧
        t.exp = now + 60 * 60) := by
  cases hu : lookupUser username with
  | none =>
    constructor
    · rw [login, hu]
      simp
    · intro user hu' _
      exact absurd hu' (by simp)
  | some user =>
    have husername : user.username = username := by
      have := List.find?_some hu
      exact eq_of_beq this
    by_cases hv : verify_password password user.hashed_password = true
    · constructor
      · rw [login, hu]
        simp only []
        rw [if_pos hv]
        constructor
        · intro h
          exact absurd h (by simp)
        · intro h
          exact absurd ⟨user, rfl, hv⟩ h
      · intro user' hu' hv'
        cases hu'
        refine ⟨create_access_token user.username none now, ?_, ?_, rfl⟩
        · rw [login, hu]
          simp only []
          rw [if_pos hv]
        · exact husername
    · constructor
      · rw [login, hu]
        simp only []
        rw [if_neg hv]
        simp only [true_iff]
        rintro ⟨user', hu', hv'⟩
        cases hu'
        exact hv hv'
      · intro user' hu' hv'
        cases hu'
        exact absurd hv' hv

theorem login_401_iff_bad_credentials_witness :
    ∃ t : JwtToken,
      login 1000 "admin" "password" = HResp.ok 200 ⟨t, "bearer"⟩ ∧
      t.sub = "admin" ∧
      t.exp = 1000 + 60 * 60 :=
  (login_401_iff_bad_credentials 1000 "admin" "password").2
    ⟨"admin", bcryptHash "password"⟩ rfl rfl

/-- C9: in this (auth) variant every employee route — create, get, list,
search, avg-salary, update, delete — answers 401 and leaves the store
untouched whenever `get_current_user` rejects the request, which happens
exactly when no bearer token is presented, its signature is not the
symmetric signature of its claims, it is expired, or its subject is not a
known credential; the root health check is served without any of this. -/
theorem employee_routes_require_auth (now : Nat) (auth : Option JwtToken)
    (req : ApiRequest) (st : StoreState) :
    (isEmployeeRoute req = true → get_current_user now auth = none →
      serve now auth req st = (HResp.err 401 "Invalid token", st)) ∧
    get_current_user now none = none ∧
    (∀ t : JwtToken, get_current_user now (some t) = none ↔
      (t.sig ≠ jwtSignature SECRET_KEY t.sub t.exp ∨ t.exp ≤ now ∨
        lookupUser t.sub = none)) ∧
    serve now auth ApiRequest.root st
      = (HResp.ok 200 (ApiBody.msg "FastAPI + MongoDB API is running!"), st) := by
  refine ⟨?_, rfl, ?_, rfl⟩
  · intro hroute hauth
    cases req with
    | root => exact absurd hroute (by simp [isEmployeeRoute])
    | token u p => exact absurd hroute (by simp [isEmployeeRoute])
    | createEmp p => simp [serve, requireAuth, hauth]
    | searchEmp skill skip limit => simp [serve, requireAuth, hauth]
    | avgSalary => simp [serve, requireAuth, hauth]
    | listEmp dep skip limit => simp [serve, requireAuth, hauth]
    | getEmp eid => simp [serve, requireAuth, hauth]
    | updateEmp eid p => simp [serve, requireAuth, hauth]
    | deleteEmp eid => simp [serve, requireAuth, hauth]
  · intro t
    rw [get_current_user]
    by_cases h1 : t.sig ≠ jwtSignature SECRET_KEY t.sub t.exp
    · rw [if_pos h1]
      simp [h1]
    · rw [if_neg h1]
      by_cases h2 : t.exp ≤ now
      · rw [if_pos h2]
        simp [h1, h2]
      · rw [if_neg h2]
        cases hl : lookupUser t.sub with
        | none => simp [h1, h2, hl]
        | some c => simp [h1, h2, hl]

theorem employee_routes_require_auth_witness :
    serve 0 none (ApiRequest.getEmp "E123") egStoreE123
      = (HResp.err 401 "Invalid token", egStoreE123) :=
  (employee_routes_require_auth 0 none (ApiRequest.getEmp "E123") egStoreE123).1 rfl rfl
